import Mathlib

/-!
Verification development for the OmniFlock learning front end and its
evolutionary training engine.

The CLI front end (`src/learning/learn.py`) is embedded directly.  The core
engine (`LearningMode`: population lifecycle, fitness evaluation, selection,
reproduction, checkpointing) is not part of the available sources; where a
definition stands in for that missing code it is modelled from the
specification and its doc comment says so.

Conventions of the embedding:
* Python real numbers are modelled as rationals (`ℚ`).
* Python strings are `String`; where character-level reasoning is needed
  (`str.rsplit`, zero-padded decimal formatting) we work on `List Char`.
* The file system is a partial map from paths to JSON-like documents.
* Fallible Python code returns `Except`/`Option`.
-/

namespace OmniFlock

/-- Little-endian decimal digits of a natural number; `[]` for `0`. -/
def digitsRevNat (n : ℕ) : List ℕ :=
  if h : n = 0 then [] else n % 10 :: digitsRevNat (n / 10)
termination_by n
decreasing_by
  exact Nat.div_lt_self (Nat.pos_of_ne_zero h) (by norm_num)

/-- Value of a little-endian digit list. -/
def valLE : List ℕ → ℕ
  | [] => 0
  | d :: ds => d + 10 * valLE ds

/-- Value of a big-endian digit list (the usual reading order). -/
def valBE (ds : List ℕ) : ℕ :=
  ds.foldl (fun a d => 10 * a + d) 0

/-- Big-endian decimal digits of a natural number, nonempty (`[0]` for `0`),
as produced by Python's `str`. -/
def natDecimalDigits (n : ℕ) : List ℕ :=
  if n = 0 then [0] else (digitsRevNat n).reverse

/-- One decimal digit as a character. -/
def decChar : ℕ → Char
  | 0 => '0' | 1 => '1' | 2 => '2' | 3 => '3' | 4 => '4'
  | 5 => '5' | 6 => '6' | 7 => '7' | 8 => '8' | _ => '9'

/-- Characters of Python's `str(n)` for a natural number. -/
def natReprChars (n : ℕ) : List Char :=
  (natDecimalDigits n).map decChar

/-- Pad a character list on the left with zeros up to width `w`
(Python's `str.zfill` / the `0`-padding of a `d` format spec). -/
def zfillChars (w : ℕ) (s : List Char) : List Char :=
  List.replicate (w - s.length) '0' ++ s

/-- Embedding of the Python format expression `f"\x7bg:04d\x7d"` for a natural
number: the decimal digits of `g`, left-padded with zeros to width four. -/
def formatZeroPad4 (g : ℕ) : List Char :=
  zfillChars 4 (natReprChars g)

/-- Read a digit character back as a number. -/
def charToDigit (c : Char) : ℕ := c.toNat - 48

/-- Parse a character list as a decimal numeral. -/
def parseNatChars (s : List Char) : ℕ :=
  s.foldl (fun a c => 10 * a + charToDigit c) 0

/-- Embedding of `os.path.join` for two relative path components on a POSIX
system, as used by the CLI. -/
def joinPath (a b : String) : String := a ++ "/" ++ b

/-- A JSON-like document: what a checkpoint file can contain.  A file whose
contents do not decode as a weight checkpoint is "malformed". -/
inductive Json where
  | num : ℚ → Json
  | str : String → Json
  | arr : List Json → Json
  | obj : List (String × Json) → Json

/-- The abstract file system: a partial map from paths to documents. -/
def FS : Type := String → Option Json

/-- Look a key up in a JSON object's field list (first match). -/
def lookupField : List (String × Json) → String → Option Json
  | [], _ => none
  | (k, v) :: rest, key => if k = key then some v else lookupField rest key

/-- Decode a JSON array's items as rationals; any non-numeric item is
malformed. -/
def decodeNums : List Json → Option (List ℚ)
  | [] => some []
  | Json.num q :: rest => (decodeNums rest).map (fun t => q :: t)
  | _ => none

/-- Modelled from the spec: the weight-file reader's decoding step (§4.5, §6
"Weight file").  The document must be an object whose `weights` field is an
array of numbers; anything else is malformed. -/
def decodeWeights : Json → Option (List ℚ)
  | Json.obj fields =>
    match lookupField fields "weights" with
    | some (Json.arr items) => decodeNums items
    | _ => none
  | _ => none

/-- Modelled from the spec: the serialization the `Checkpointer` writes — the
ordered weight list plus advisory metadata (generation index, fitness) that is
not required for reloading (§6 "Weight file"). -/
def encodeCheckpoint (g : ℕ) (fit : ℚ) (ws : List ℚ) : Json :=
  Json.obj [("generation", Json.num g), ("fitness", Json.num fit),
            ("weights", Json.arr (ws.map Json.num))]

/-- Errors raised by the weight-file loader. -/
inductive LoadError where
  | missing
  | malformed
deriving DecidableEq

/-- Modelled from the spec: `Checkpointer.load(path) -> WeightVector` (§4.5).
A missing or malformed file fails with a `LoadError`; a default vector is
never substituted. -/
def loadWeightsFile (fs : FS) (path : String) : Except LoadError (List ℚ) :=
  match fs path with
  | none => Except.error LoadError.missing
  | some j =>
    match decodeWeights j with
    | none => Except.error LoadError.malformed
    | some ws => Except.ok ws

/-- The checkpoint file path for one generation inside `save_dir`:
`gen_` + zero-padded generation + `_best_weights.json`. -/
def checkpointFilePath (saveDir : String) (g : ℕ) : String :=
  joinPath saveDir ("gen_" ++ String.mk (formatZeroPad4 g) ++ "_best_weights.json")

/-- Embedding of line 139 of `learn.py`: the path the CLI prints for the best
generation's weights,
`os.path.join(args.save_dir, f"gen_\x7bbest_gen.generation:04d\x7d_best_weights.json")`. -/
def cliBestWeightsFile (saveDir : String) (g : ℕ) : String :=
  joinPath saveDir ("gen_" ++ String.mk (formatZeroPad4 g) ++ "_best_weights.json")

/-- Modelled from the spec: `Checkpointer.save(generation_index, weights) ->
file path` (§4.5): writes the serialized checkpoint under the
generation-encoded name inside `save_dir` and returns the path. -/
def saveCheckpoint (saveDir : String) (g : ℕ) (fit : ℚ) (ws : List ℚ) (fs : FS) :
    String × FS :=
  let path := checkpointFilePath saveDir g
  (path, fun p => if p = path then some (encodeCheckpoint g fit ws) else fs p)

/-- Split a character list at its last `'.'`: `some (before, after)` when a
dot exists, `none` otherwise.  This is the content of
`class_path.rsplit('.', 1)`. -/
def splitLastDot : List Char → Option (List Char × List Char)
  | [] => none
  | c :: rest =>
    match splitLastDot rest with
    | some (b, a) => some (c :: b, a)
    | none => if c = '.' then some ([], rest) else none

/-- Abstract Python import machinery: which module names import successfully,
and which attributes each module has. -/
structure PyEnv where
  Module : Type
  PyClass : Type
  modules : List Char → Option Module
  attr : Module → List Char → Option PyClass

/-- Exceptions `load_class` can propagate. -/
inductive PyError where
  | valueError
  | importError
  | attributeError
deriving DecidableEq

/-- Embedding of `load_class` (lines 12-16 of `learn.py`): split the path at
the last dot, import the module part, return the named attribute. -/
def load_class (env : PyEnv) (class_path : List Char) : Except PyError env.PyClass :=
  match splitLastDot class_path with
  | none => Except.error PyError.valueError
  | some (m, c) =>
    match env.modules m with
    | none => Except.error PyError.importError
    | some md =>
      match env.attr md c with
      | none => Except.error PyError.attributeError
      | some cls => Except.ok cls

/-- Modelled from the spec: an `Individual` — a weight vector plus its
fitness, `none` while unevaluated (§3). -/
structure Individual where
  weights : List ℚ
  fitness : Option ℚ
deriving DecidableEq

/-- The run parameters consumed by the engine's constructor (§6), exactly the
keyword arguments the CLI passes at lines 97-107 of `learn.py`. -/
structure RunParams where
  population_size : ℕ
  generation_frames : ℕ
  mutation_rate : ℚ
  mutation_range : ℚ
  elite_percentage : ℚ
  tournament_size : ℕ
  visualize : Bool
deriving DecidableEq

/-- Modelled from the spec: per-generation statistics, one record per
generation collected into the run's history (§3). -/
structure GenerationStats where
  generation : ℕ
  max_fitness : ℚ
  mean_fitness : ℚ
  min_fitness : ℚ
  best_weights : List ℚ
deriving DecidableEq

/-- The fitness of an individual, reading an unevaluated slot as `0`.  The
engine only reads this on evaluated populations. -/
def fitOf (ind : Individual) : ℚ := ind.fitness.getD 0

/-- The first individual of maximal fitness, as Python's
`max(population, key=...)` returns it. -/
def bestIndividual : List Individual → Individual
  | [] => { weights := [], fitness := none }
  | [x] => x
  | x :: y :: rest =>
    let b := bestIndividual (y :: rest)
    if fitOf b ≤ fitOf x then x else b

/-- The least fitness in a population. -/
def minFit : List Individual → ℚ
  | [] => 0
  | [x] => fitOf x
  | x :: y :: rest => min (fitOf x) (minFit (y :: rest))

/-- Modelled from the spec: the EVALUATE step (§4.4) walked by individual
index.  `fitf gen idx weights` is the scalar the `FitnessEvaluator` reads
from one bounded simulation; per §5 it is a deterministic function of the
per-run seed, the generation, the individual index and the weights.  Elites
arrive already evaluated and are not re-evaluated (§8). -/
def evaluateFrom (fitf : ℕ → ℕ → List ℚ → ℚ) (g : ℕ) : ℕ → List Individual → List Individual
  | _, [] => []
  | i, ind :: rest =>
    (match ind.fitness with
     | some _ => ind
     | none => { weights := ind.weights, fitness := some (fitf g i ind.weights) }) ::
    evaluateFrom fitf g (i + 1) rest

/-- Evaluate a whole population for generation `g`. -/
def evaluatePop (fitf : ℕ → ℕ → List ℚ → ℚ) (g : ℕ) (pop : List Individual) :
    List Individual :=
  evaluateFrom fitf g 0 pop

/-- Fitness-descending comparison used to sort a population; ties compare
true so that the stable insertion sort preserves their original order. -/
def fitGE (a b : Individual) : Prop := fitOf b ≤ fitOf a

instance : DecidableRel fitGE := fun a b => inferInstanceAs (Decidable (fitOf b ≤ fitOf a))

instance : IsTotal Individual fitGE := ⟨fun a b => le_total (fitOf b) (fitOf a)⟩

instance : IsTrans Individual fitGE := ⟨fun _ _ _ h1 h2 => le_trans h2 h1⟩

/-- Modelled from the spec: step 1 of the `Reproducer` (§4.3) — sort by
fitness descending, stable. -/
def sortDesc (pop : List Individual) : List Individual :=
  List.insertionSort fitGE pop

/-- Ceiling of a rational, clamped to the naturals. -/
def ceilNat (q : ℚ) : ℕ := Int.toNat ⌈q⌉

/-- Modelled from the spec: the elite count,
`ceil(elite_percentage * population_size)` clamped to
`[0, population_size]` (§4.3). -/
def eliteCount (p : RunParams) : ℕ :=
  min p.population_size (ceilNat (p.elite_percentage * p.population_size))

/-- A fresh, unevaluated individual. -/
def mkUneval (ws : List ℚ) : Individual := { weights := ws, fitness := none }

/-- Modelled from the spec: the `Reproducer` (§4.3).  Elites are the top
`eliteCount` of the fitness-sorted population, copied verbatim with their
known fitness; the remaining slots are filled with children whose fitness is
unevaluated.  The selection/crossover/mutation pipeline that produces a
child's weights is deliberately abstract (`mkChild gen slot pop`), since §9
records the exact operators as an open policy question; every child
nevertheless enters the next generation unevaluated, which is all the
claims below depend on. -/
def reproduce (p : RunParams) (mkChild : ℕ → ℕ → List Individual → List ℚ) (g : ℕ)
    (pop : List Individual) : List Individual :=
  let sorted := sortDesc pop
  let elites := sorted.take (eliteCount p)
  let numChildren := p.population_size - eliteCount p
  elites ++ (List.range numChildren).map (fun slot => mkUneval (mkChild g slot pop))

/-- Modelled from the spec: the RECORD step (§4.4) — `GenerationStats`
computed from the evaluated population. -/
def mkStats (g : ℕ) (pop : List Individual) : GenerationStats :=
  { generation := g
    max_fitness := fitOf (bestIndividual pop)
    mean_fitness := (pop.map fitOf).sum / pop.length
    min_fitness := minFit pop
    best_weights := (bestIndividual pop).weights }

/-- Modelled from the spec: the generation loop of `run_evolution` (§4.4),
`(EVALUATE -> RECORD -> CHECKPOINT -> REPRODUCE) x generations`, starting at
generation index `g` with `n` generations left, threading the file system
through the per-generation checkpoint write. -/
def evolveFrom (fitf : ℕ → ℕ → List ℚ → ℚ) (mkChild : ℕ → ℕ → List Individual → List ℚ)
    (p : RunParams) (saveDir : String) :
    ℕ → List Individual → FS → ℕ → List GenerationStats × FS
  | _, _, fs, 0 => ([], fs)
  | g, pop, fs, Nat.succ n =>
    let ev := evaluatePop fitf g pop
    let stats := mkStats g ev
    let fs2 := (saveCheckpoint saveDir g stats.max_fitness stats.best_weights fs).2
    let rest := evolveFrom fitf mkChild p saveDir (g + 1) (reproduce p mkChild g ev) fs2 n
    (stats :: rest.1, rest.2)

/-- Modelled from the spec: `run_evolution(generations, save_dir)` (§4.4) —
runs the loop from generation 0 on the initial population and returns the
full history together with the checkpoint store. -/
def run_evolution (fitf : ℕ → ℕ → List ℚ → ℚ)
    (mkChild : ℕ → ℕ → List Individual → List ℚ) (p : RunParams)
    (pop0 : List Individual) (fs0 : FS) (generations : ℕ) (saveDir : String) :
    List GenerationStats × FS :=
  evolveFrom fitf mkChild p saveDir 0 pop0 fs0 generations

/-- Errors raised by the engine's constructor. -/
inductive ConfigError where
  | configurationError
deriving DecidableEq

/-- Modelled from the spec: the parameter validation the engine's constructor
performs (§6 run-parameter domains, §7 fail-fast examples). -/
def validParams (p : RunParams) : Bool :=
  decide (1 ≤ p.population_size) &&
  decide (1 ≤ p.tournament_size) && decide (p.tournament_size ≤ p.population_size) &&
  decide (0 ≤ p.mutation_rate) && decide (p.mutation_rate ≤ 1) &&
  decide (0 ≤ p.mutation_range) &&
  decide (0 ≤ p.elite_percentage) && decide (p.elite_percentage ≤ 1)

/-- Modelled from the spec: the `LearningMode` constructor — invalid run
parameters fail fast with a `ConfigurationError` before any simulation work
begins (§7). -/
def mkLearningMode (p : RunParams) : Except ConfigError RunParams :=
  if validParams p then Except.ok p else Except.error ConfigError.configurationError

/-- The two values of `--mode`. -/
inductive Mode where
  | learn
  | demo
deriving DecidableEq

/-- The parsed command-line arguments, one field per `add_argument` call. -/
structure Args where
  mode : Mode
  scenario : String
  intelligence : String
  list : Bool
  generations : ℕ
  population_size : ℕ
  generation_frames : ℕ
  mutation_rate : ℚ
  mutation_range : ℚ
  elite_percentage : ℚ
  tournament_size : ℕ
  save_dir : Option String
  load_weights : Option String
  visualize : Bool
  num_bots : ℕ
deriving DecidableEq

/-- Python truthiness of an optional string: `None` and `''` are falsy. -/
def truthy : Option String → Bool
  | none => false
  | some s => s ≠ ""

/-- The run parameters `main` hands to the `LearningMode` constructor at
lines 97-107: the parsed values, passed through unchanged. -/
def cfgOf (a : Args) : RunParams :=
  { population_size := a.population_size
    generation_frames := a.generation_frames
    mutation_rate := a.mutation_rate
    mutation_range := a.mutation_range
    elite_percentage := a.elite_percentage
    tournament_size := a.tournament_size
    visualize := a.visualize }

/-- Embedding of lines 89-94 of `learn.py`: when `--save-dir` is absent and
the mode is `learn`, the save directory becomes
`evolution_results/\x7bscenario\x7d_\x7bintelligence\x7d_\x7btimestamp\x7d`;
otherwise `args.save_dir` is left as parsed. -/
def effectiveSaveDir (a : Args) (ts : String) : Option String :=
  if a.save_dir = none ∧ a.mode = Mode.learn then
    some (joinPath "evolution_results" (a.scenario ++ "_" ++ a.intelligence ++ "_" ++ ts))
  else a.save_dir

/-- The externally observable actions of one `main` invocation, in order. -/
inductive Event where
  | listOptions
  | resolveScenario (name : String)
  | resolveIntelligence (name : String)
  | configFailed
  | constructLearning (p : RunParams)
  | loadWeightsOk (path : String)
  | loadFailed (path : String)
  | runEvolution (gens : ℕ) (saveDir : Option String)
  | printError
  | demoRun (path : String) (numBots : ℕ)
deriving DecidableEq

/-- Whether an event is a registry resolution (line 85 or 86). -/
def Event.isResolve : Event → Bool
  | Event.resolveScenario _ => true
  | Event.resolveIntelligence _ => true
  | _ => false

/-- Whether an event performs simulation work (runs the loop, loads weights
into the population, or drives a demo). -/
def Event.isSimWork : Event → Bool
  | Event.runEvolution _ _ => true
  | Event.demoRun _ _ => true
  | Event.loadWeightsOk _ => true
  | _ => false

/-- The learn/demo branch of `main`: the learn branch (lines 109-141)
optionally loads the seed weights (lines 111-113, a `LoadError` aborts) and
runs the evolution (line 129); the demo branch (lines 143-154) prints an
error when `--load-weights` is absent (lines 144-146) and otherwise loads
the file and drives the demo (line 154). -/
def mainModeBranch (fs : FS) (a : Args) (ts : String) : List Event :=
  match a.mode with
  | Mode.learn =>
    if truthy a.load_weights then
      match loadWeightsFile fs (a.load_weights.getD "") with
      | Except.error _ => [Event.loadFailed (a.load_weights.getD "")]
      | Except.ok _ =>
        [Event.loadWeightsOk (a.load_weights.getD ""),
         Event.runEvolution a.generations (effectiveSaveDir a ts)]
    else [Event.runEvolution a.generations (effectiveSaveDir a ts)]
  | Mode.demo =>
    if truthy a.load_weights then
      match loadWeightsFile fs (a.load_weights.getD "") with
      | Except.error _ => [Event.loadFailed (a.load_weights.getD "")]
      | Except.ok _ => [Event.demoRun (a.load_weights.getD "") a.num_bots]
    else [Event.printError]

/-- The actions of `main` after the two registry resolutions of lines 85-86:
construction of `LearningMode` (aborting on a `ConfigurationError`) followed
by the learn or demo branch. -/
def mainAfterResolve (fs : FS) (a : Args) (ts : String) : List Event :=
  match mkLearningMode (cfgOf a) with
  | Except.error _ => [Event.configFailed]
  | Except.ok _ => Event.constructLearning (cfgOf a) :: mainModeBranch fs a ts

/-- Embedding of `main` (lines 77-154 of `learn.py`) as its ordered list of
observable actions: the `--list` branch, or the two registry resolutions of
lines 85-86 followed by everything after them. -/
def mainTrace (fs : FS) (a : Args) (ts : String) : List Event :=
  if a.list then [Event.listOptions] else
  Event.resolveScenario a.scenario :: Event.resolveIntelligence a.intelligence ::
  mainAfterResolve fs a ts

/-- Whether an event is the scenario resolution of line 85. -/
def Event.isResolveScenario : Event → Bool
  | Event.resolveScenario _ => true
  | _ => false

/-- Whether an event is the intelligence resolution of line 86. -/
def Event.isResolveIntelligence : Event → Bool
  | Event.resolveIntelligence _ => true
  | _ => false

/-- A constant fitness evaluator used for concrete runs. -/
def exFit : ℕ → ℕ → List ℚ → ℚ := fun _ _ _ => 0

/-- A constant child generator used for concrete runs. -/
def exChild : ℕ → ℕ → List Individual → List ℚ := fun _ _ _ => [0]

/-- A small valid parameter set used for concrete runs. -/
def exParams : RunParams :=
  { population_size := 1
    generation_frames := 1
    mutation_rate := 0
    mutation_range := 0
    elite_percentage := 1
    tournament_size := 1
    visualize := false }

/-- A one-individual initial population used for concrete runs. -/
def exPop : List Individual := [{ weights := [0], fitness := none }]

/-- The empty file system used for concrete runs. -/
def exFS : FS := fun _ => none

/-- An import environment where every module import and attribute lookup
succeeds and records its inputs, used for concrete runs. -/
def exEnv : PyEnv where
  Module := List Char
  PyClass := List Char × List Char
  modules := fun m => some m
  attr := fun md c => some (md, c)

/-- Concrete parsed arguments used for concrete runs: demo mode without
`--load-weights`. -/
def exArgsDemo : Args :=
  { mode := Mode.demo
    scenario := "free_roam"
    intelligence := "flocking"
    list := false
    generations := 100
    population_size := 50
    generation_frames := 500
    mutation_rate := 1/10
    mutation_range := 1/5
    elite_percentage := 1/10
    tournament_size := 5
    save_dir := none
    load_weights := none
    visualize := false
    num_bots := 30 }

/-! ### Lemmas and theorems -/

theorem valLE_digitsRevNat (n : ℕ) : valLE (digitsRevNat n) = n := by
  induction n using Nat.strong_induction_on with
  | _ n ih =>
    rw [digitsRevNat]
    by_cases h : n = 0
    · simp [h, valLE]
    · simp only [h, dite_false, valLE]
      rw [ih (n / 10) (Nat.div_lt_self (Nat.pos_of_ne_zero h) (by norm_num))]
      exact Nat.mod_add_div n 10

theorem mem_digitsRevNat_lt (n : ℕ) : ∀ d ∈ digitsRevNat n, d < 10 := by
  induction n using Nat.strong_induction_on with
  | _ n ih =>
    rw [digitsRevNat]
    by_cases h : n = 0
    · simp [h]
    · simp only [h, dite_false, List.mem_cons]
      rintro d (rfl | hd)
      · exact Nat.mod_lt _ (by norm_num)
      · exact ih (n / 10) (Nat.div_lt_self (Nat.pos_of_ne_zero h) (by norm_num)) d hd

theorem mem_natDecimalDigits_lt (n : ℕ) : ∀ d ∈ natDecimalDigits n, d < 10 := by
  unfold natDecimalDigits
  by_cases h : n = 0
  · simp [h]
  · simp only [h, if_false, List.mem_reverse]
    exact mem_digitsRevNat_lt n

theorem foldl_valLE (l : List ℕ) :
    List.foldr (fun d a => 10 * a + d) 0 l = valLE l := by
  induction l with
  | nil => rfl
  | cons d ds ih =>
    show 10 * List.foldr (fun d a => 10 * a + d) 0 ds + d = valLE (d :: ds)
    rw [ih]
    show 10 * valLE ds + d = d + 10 * valLE ds
    exact Nat.add_comm _ _

theorem valBE_reverse (l : List ℕ) : valBE l.reverse = valLE l := by
  unfold valBE
  rw [List.foldl_reverse]
  exact foldl_valLE l

theorem valBE_natDecimalDigits (n : ℕ) : valBE (natDecimalDigits n) = n := by
  unfold natDecimalDigits
  by_cases h : n = 0
  · simp [h, valBE]
  · simp only [h, if_false]
    rw [valBE_reverse, valLE_digitsRevNat]

theorem charToDigit_decChar (d : ℕ) (hd : d < 10) : charToDigit (decChar d) = d := by
  interval_cases d <;> rfl

theorem length_digitsRevNat_le (k : ℕ) : ∀ n, n < 10 ^ k → (digitsRevNat n).length ≤ k := by
  induction k with
  | zero =>
    intro n hn
    interval_cases n
    rw [digitsRevNat]
    simp
  | succ k ih =>
    intro n hn
    rw [digitsRevNat]
    by_cases h : n = 0
    · simp [h]
    · simp only [h, dite_false, List.length_cons]
      have : n / 10 < 10 ^ k := by
        rw [Nat.div_lt_iff_lt_mul (by norm_num)]
        calc n < 10 ^ (k + 1) := hn
        _ = 10 ^ k * 10 := by ring
      exact Nat.succ_le_succ (ih (n / 10) this)

theorem parseNatChars_replicate_zero (k : ℕ) (l : List Char) :
    parseNatChars (List.replicate k '0' ++ l) = parseNatChars l := by
  induction k with
  | zero => rfl
  | succ k ih =>
    show parseNatChars ('0' :: (List.replicate k '0' ++ l)) = parseNatChars l
    unfold parseNatChars at ih ⊢
    simp only [List.foldl_cons]
    have h0 : (10 * 0 + charToDigit '0') = 0 := by decide
    rw [h0]
    exact ih

theorem foldl_digits_map_decChar (ds : List ℕ) (hd : ∀ d ∈ ds, d < 10) (acc : ℕ) :
    List.foldl (fun a c => 10 * a + charToDigit c) acc (ds.map decChar) =
      List.foldl (fun a d => 10 * a + d) acc ds := by
  induction ds generalizing acc with
  | nil => rfl
  | cons d ds ih =>
    simp only [List.map_cons, List.foldl_cons]
    rw [charToDigit_decChar d (hd d (List.mem_cons_self d ds))]
    exact ih (fun x hx => hd x (List.mem_cons_of_mem d hx)) _

theorem parseNatChars_natReprChars (n : ℕ) : parseNatChars (natReprChars n) = n := by
  unfold natReprChars parseNatChars
  rw [foldl_digits_map_decChar _ (mem_natDecimalDigits_lt n)]
  exact valBE_natDecimalDigits n

theorem parseNatChars_formatZeroPad4 (n : ℕ) : parseNatChars (formatZeroPad4 n) = n := by
  unfold formatZeroPad4 zfillChars
  rw [parseNatChars_replicate_zero]
  exact parseNatChars_natReprChars n

theorem length_natReprChars_le (n : ℕ) (h : n ≤ 9999) : (natReprChars n).length ≤ 4 := by
  unfold natReprChars natDecimalDigits
  by_cases h0 : n = 0
  · simp [h0]
  · simp only [h0, if_false, List.length_map, List.length_reverse]
    exact length_digitsRevNat_le 4 n (by omega)

theorem length_formatZeroPad4 (n : ℕ) (h : n ≤ 9999) : (formatZeroPad4 n).length = 4 := by
  unfold formatZeroPad4 zfillChars
  have hl := length_natReprChars_le n h
  simp only [List.length_append, List.length_replicate]
  omega

theorem decodeNums_map_num (ws : List ℚ) : decodeNums (ws.map Json.num) = some ws := by
  induction ws with
  | nil => rfl
  | cons w ws ih => simp [decodeNums, ih]

theorem decodeWeights_encodeCheckpoint (g : ℕ) (fit : ℚ) (ws : List ℚ) :
    decodeWeights (encodeCheckpoint g fit ws) = some ws := by
  show (match lookupField [("generation", Json.num g), ("fitness", Json.num fit),
          ("weights", Json.arr (ws.map Json.num))] "weights" with
        | some (Json.arr items) => decodeNums items
        | _ => none) = some ws
  have h : lookupField [("generation", Json.num (g : ℚ)), ("fitness", Json.num fit),
      ("weights", Json.arr (ws.map Json.num))] "weights" =
      some (Json.arr (ws.map Json.num)) := by
    simp only [lookupField]
    rw [if_neg (by decide), if_neg (by decide)]
    simp
  rw [h]
  exact decodeNums_map_num ws

theorem splitLastDot_eq_none_iff (s : List Char) : splitLastDot s = none ↔ '.' ∉ s := by
  induction s with
  | nil => simp [splitLastDot]
  | cons c rest ih =>
    simp only [splitLastDot, List.mem_cons]
    cases h : splitLastDot rest with
    | some p =>
      simp only []
      constructor
      · intro habs; exact absurd habs (by simp)
      · intro hnot
        exfalso
        have : '.' ∉ rest := fun hm => hnot (Or.inr hm)
        rw [← ih] at this
        rw [this] at h
        exact Option.noConfusion h
    | none =>
      rw [ih] at h
      by_cases hc : c = '.'
      · subst hc
        simp
      · simp [hc, Ne.symm hc, h]

theorem splitLastDot_spec (s m c : List Char) (h : splitLastDot s = some (m, c)) :
    s = m ++ '.' :: c ∧ '.' ∉ c := by
  induction s generalizing m c with
  | nil => exact absurd h (by simp [splitLastDot])
  | cons x rest ih =>
    simp only [splitLastDot] at h
    cases hr : splitLastDot rest with
    | some p =>
      obtain ⟨b, a⟩ := p
      rw [hr] at h
      simp only [Option.some.injEq, Prod.mk.injEq] at h
      obtain ⟨h1, h2⟩ := h
      obtain ⟨hs, hna⟩ := ih b a hr
      subst h2
      constructor
      · rw [← h1, hs]; rfl
      · exact hna
    | none =>
      rw [hr] at h
      by_cases hx : x = '.'
      · rw [if_pos hx] at h
        simp only [Option.some.injEq, Prod.mk.injEq] at h
        obtain ⟨h1, h2⟩ := h
        subst hx
        constructor
        · rw [← h1, ← h2]; rfl
        · rw [← h2]
          exact (splitLastDot_eq_none_iff rest).mp hr
      · rw [if_neg hx] at h
        exact Option.noConfusion h

theorem bestIndividual_mem : ∀ (x : Individual) (l : List Individual),
    bestIndividual (x :: l) ∈ x :: l := by
  intro x l
  induction l generalizing x with
  | nil => simp [bestIndividual]
  | cons y rest ih =>
    show (if fitOf (bestIndividual (y :: rest)) ≤ fitOf x then x
          else bestIndividual (y :: rest)) ∈ x :: y :: rest
    by_cases h : fitOf (bestIndividual (y :: rest)) ≤ fitOf x
    · rw [if_pos h]; exact List.mem_cons_self x _
    · rw [if_neg h]; exact List.mem_cons_of_mem x (ih y)

theorem le_fitOf_bestIndividual : ∀ (x : Individual) (l : List Individual),
    ∀ z ∈ x :: l, fitOf z ≤ fitOf (bestIndividual (x :: l)) := by
  intro x l
  induction l generalizing x with
  | nil =>
    intro z hz
    rw [List.mem_singleton] at hz
    subst hz
    exact le_refl _
  | cons y rest ih =>
    intro z hz
    show fitOf z ≤ fitOf (if fitOf (bestIndividual (y :: rest)) ≤ fitOf x then x
          else bestIndividual (y :: rest))
    rcases List.mem_cons.mp hz with hzx | hzt
    · subst hzx
      by_cases h : fitOf (bestIndividual (y :: rest)) ≤ fitOf z
      · rw [if_pos h]
      · rw [if_neg h]
        exact le_of_lt (lt_of_not_le h)
    · have hb := ih y z hzt
      by_cases h : fitOf (bestIndividual (y :: rest)) ≤ fitOf x
      · rw [if_pos h]; exact le_trans hb h
      · rw [if_neg h]; exact hb

theorem mem_evaluateFrom_of_isSome (fitf : ℕ → ℕ → List ℚ → ℚ) (g : ℕ)
    (x : Individual) (hx : x.fitness.isSome) :
    ∀ (i : ℕ) (l : List Individual), x ∈ l → x ∈ evaluateFrom fitf g i l := by
  intro i l
  induction l generalizing i with
  | nil => intro h; exact absurd h (List.not_mem_nil x)
  | cons ind rest ih =>
    intro hmem
    rcases List.mem_cons.mp hmem with hhd | htl
    · subst hhd
      obtain ⟨f, hf⟩ := Option.isSome_iff_exists.mp hx
      show x ∈ (match x.fitness with
        | some _ => x
        | none => { weights := x.weights, fitness := some (fitf g i x.weights) }) ::
        evaluateFrom fitf g (i + 1) rest
      rw [hf]
      exact List.mem_cons_self x _
    · exact List.mem_cons_of_mem _ (ih (i + 1) htl)

theorem isSome_of_mem_evaluateFrom (fitf : ℕ → ℕ → List ℚ → ℚ) (g : ℕ) :
    ∀ (i : ℕ) (l : List Individual) (x : Individual),
      x ∈ evaluateFrom fitf g i l → x.fitness.isSome := by
  intro i l
  induction l generalizing i with
  | nil => intro x h; exact absurd h (List.not_mem_nil x)
  | cons ind rest ih =>
    intro x hmem
    rcases List.mem_cons.mp hmem with hhd | htl
    · subst hhd
      cases hf : ind.fitness with
      | some f => simp [hf]
      | none => simp [hf]
    · exact ih (i + 1) x htl

theorem evaluateFrom_ne_nil (fitf : ℕ → ℕ → List ℚ → ℚ) (g i : ℕ)
    (l : List Individual) (h : l ≠ []) : evaluateFrom fitf g i l ≠ [] := by
  cases l with
  | nil => exact absurd rfl h
  | cons ind rest => simp [evaluateFrom]

theorem evaluatePop_ne_nil (fitf : ℕ → ℕ → List ℚ → ℚ) (g : ℕ)
    (l : List Individual) (h : l ≠ []) : evaluatePop fitf g l ≠ [] :=
  evaluateFrom_ne_nil fitf g 0 l h

theorem mem_sortDesc_iff (pop : List Individual) (x : Individual) :
    x ∈ sortDesc pop ↔ x ∈ pop :=
  List.mem_insertionSort fitGE

theorem sortDesc_ne_nil (pop : List Individual) (h : pop ≠ []) : sortDesc pop ≠ [] := by
  intro habs
  obtain ⟨x, hx⟩ := List.exists_mem_of_ne_nil pop h
  rw [← mem_sortDesc_iff, habs] at hx
  exact List.not_mem_nil x hx

theorem sortDesc_head_top (pop : List Individual) (h : Individual)
    (t : List Individual) (hs : sortDesc pop = h :: t) :
    ∀ x ∈ sortDesc pop, fitOf x ≤ fitOf h := by
  have hsorted : List.Sorted fitGE (sortDesc pop) := List.sorted_insertionSort fitGE pop
  rw [hs] at hsorted ⊢
  intro x hx
  rcases List.mem_cons.mp hx with hxh | hxt
  · subst hxh; exact le_refl _
  · exact (List.pairwise_cons.mp hsorted).1 x hxt

theorem one_le_eliteCount (p : RunParams) (hp : 0 < p.elite_percentage)
    (hN : 1 ≤ p.population_size) : 1 ≤ eliteCount p := by
  unfold eliteCount
  rw [Nat.le_min]
  refine ⟨hN, ?_⟩
  unfold ceilNat
  have hq : (0 : ℚ) < p.elite_percentage * p.population_size := by
    apply mul_pos hp
    exact_mod_cast Nat.lt_of_lt_of_le Nat.zero_lt_one hN
  have hceil : 0 < ⌈p.elite_percentage * (p.population_size : ℚ)⌉ := Int.ceil_pos.mpr hq
  omega

theorem reproduce_ne_nil (p : RunParams) (mkChild : ℕ → ℕ → List Individual → List ℚ)
    (g : ℕ) (pop : List Individual) (hk : 1 ≤ eliteCount p) (h : pop ≠ []) :
    reproduce p mkChild g pop ≠ [] := by
  unfold reproduce
  intro habs
  rw [List.append_eq_nil] at habs
  have hs := sortDesc_ne_nil pop h
  cases hsd : sortDesc pop with
  | nil => exact hs hsd
  | cons x t =>
    have := habs.1
    rw [hsd] at this
    cases hk' : eliteCount p with
    | zero => omega
    | succ n =>
      rw [hk'] at this
      exact List.noConfusion this

theorem maxFit_le_after_reproduce (fitf : ℕ → ℕ → List ℚ → ℚ)
    (mkChild : ℕ → ℕ → List Individual → List ℚ) (p : RunParams) (g g2 : ℕ)
    (pop : List Individual) (hk : 1 ≤ eliteCount p) (hpop : pop ≠ [])
    (hall : ∀ x ∈ pop, x.fitness.isSome) :
    fitOf (bestIndividual pop) ≤
      fitOf (bestIndividual (evaluatePop fitf g2 (reproduce p mkChild g pop))) := by
  cases hsd : sortDesc pop with
  | nil => exact absurd hsd (sortDesc_ne_nil pop hpop)
  | cons h t =>
    have hbmem : bestIndividual pop ∈ pop := by
      cases pop with
      | nil => exact absurd rfl hpop
      | cons x l => exact bestIndividual_mem x l
    have hbsort : bestIndividual pop ∈ sortDesc pop := (mem_sortDesc_iff pop _).mpr hbmem
    have hbh : fitOf (bestIndividual pop) ≤ fitOf h :=
      sortDesc_head_top pop h t hsd _ hbsort
    have hhrep : h ∈ reproduce p mkChild g pop := by
      unfold reproduce
      apply List.mem_append_left
      rw [hsd]
      cases hk' : eliteCount p with
      | zero => omega
      | succ n => exact List.mem_cons_self h _
    have hhsome : h.fitness.isSome := by
      apply hall h
      rw [← mem_sortDesc_iff pop h, hsd]
      exact List.mem_cons_self h t
    have hhev : h ∈ evaluatePop fitf g2 (reproduce p mkChild g pop) :=
      mem_evaluateFrom_of_isSome fitf g2 h hhsome 0 _ hhrep
    have hle : fitOf h ≤
        fitOf (bestIndividual (evaluatePop fitf g2 (reproduce p mkChild g pop))) := by
      cases hev : evaluatePop fitf g2 (reproduce p mkChild g pop) with
      | nil =>
        exfalso
        exact evaluatePop_ne_nil fitf g2 _
          (reproduce_ne_nil p mkChild g pop hk hpop) hev
      | cons x l =>
        apply le_fitOf_bestIndividual x l
        rw [← hev]
        exact hhev
    exact le_trans hbh hle

theorem evolveFrom_length (fitf : ℕ → ℕ → List ℚ → ℚ)
    (mkChild : ℕ → ℕ → List Individual → List ℚ) (p : RunParams) (saveDir : String) :
    ∀ (n g : ℕ) (pop : List Individual) (fs : FS),
      ((evolveFrom fitf mkChild p saveDir g pop fs n).1).length = n := by
  intro n
  induction n with
  | zero => intro g pop fs; rfl
  | succ n ih =>
    intro g pop fs
    show (mkStats g (evaluatePop fitf g pop) :: _).length = n + 1
    rw [List.length_cons]
    rw [ih]

theorem evolveFrom_generation (fitf : ℕ → ℕ → List ℚ → ℚ)
    (mkChild : ℕ → ℕ → List Individual → List ℚ) (p : RunParams) (saveDir : String) :
    ∀ (n g : ℕ) (pop : List Individual) (fs : FS) (i : ℕ) (s : GenerationStats),
      ((evolveFrom fitf mkChild p saveDir g pop fs n).1)[i]? = some s →
      s.generation = g + i := by
  intro n
  induction n with
  | zero =>
    intro g pop fs i s h
    exact absurd h (by simp [evolveFrom])
  | succ n ih =>
    intro g pop fs i s h
    have hcons : (evolveFrom fitf mkChild p saveDir g pop fs (n + 1)).1 =
        mkStats g (evaluatePop fitf g pop) ::
          (evolveFrom fitf mkChild p saveDir (g + 1)
            (reproduce p mkChild g (evaluatePop fitf g pop))
            ((saveCheckpoint saveDir g (mkStats g (evaluatePop fitf g pop)).max_fitness
              (mkStats g (evaluatePop fitf g pop)).best_weights fs).2) n).1 := rfl
    rw [hcons] at h
    cases i with
    | zero =>
      rw [List.getElem?_cons_zero] at h
      have : s = mkStats g (evaluatePop fitf g pop) := (Option.some.inj h).symm
      rw [this]
      rfl
    | succ i =>
      rw [List.getElem?_cons_succ] at h
      have := ih (g + 1) _ _ i s h
      omega

theorem evolveFrom_head_bound (fitf : ℕ → ℕ → List ℚ → ℚ)
    (mkChild : ℕ → ℕ → List Individual → List ℚ) (p : RunParams) (saveDir : String)
    (hk : 1 ≤ eliteCount p) :
    ∀ (n g : ℕ) (pop : List Individual) (fs : FS) (j : ℕ) (s : GenerationStats),
      pop ≠ [] →
      ((evolveFrom fitf mkChild p saveDir g pop fs n).1)[j]? = some s →
      fitOf (bestIndividual (evaluatePop fitf g pop)) ≤ s.max_fitness := by
  intro n
  induction n with
  | zero =>
    intro g pop fs j s _ h
    exact absurd h (by simp [evolveFrom])
  | succ n ih =>
    intro g pop fs j s hpop h
    have hcons : (evolveFrom fitf mkChild p saveDir g pop fs (n + 1)).1 =
        mkStats g (evaluatePop fitf g pop) ::
          (evolveFrom fitf mkChild p saveDir (g + 1)
            (reproduce p mkChild g (evaluatePop fitf g pop))
            ((saveCheckpoint saveDir g (mkStats g (evaluatePop fitf g pop)).max_fitness
              (mkStats g (evaluatePop fitf g pop)).best_weights fs).2) n).1 := rfl
    rw [hcons] at h
    cases j with
    | zero =>
      rw [List.getElem?_cons_zero] at h
      have hs : s = mkStats g (evaluatePop fitf g pop) := (Option.some.inj h).symm
      rw [hs]
      exact le_refl _
    | succ j =>
      rw [List.getElem?_cons_succ] at h
      have hevne : evaluatePop fitf g pop ≠ [] := evaluatePop_ne_nil fitf g pop hpop
      have hrepne : reproduce p mkChild g (evaluatePop fitf g pop) ≠ [] :=
        reproduce_ne_nil p mkChild g _ hk hevne
      have hnext := ih (g + 1) _ _ j s hrepne h
      have hstep : fitOf (bestIndividual (evaluatePop fitf g pop)) ≤
          fitOf (bestIndividual (evaluatePop fitf (g + 1)
            (reproduce p mkChild g (evaluatePop fitf g pop)))) :=
        maxFit_le_after_reproduce fitf mkChild p g (g + 1) (evaluatePop fitf g pop) hk
          hevne (fun x hx => isSome_of_mem_evaluateFrom fitf g 0 pop x hx)
      exact le_trans hstep hnext

theorem evolveFrom_max_mono (fitf : ℕ → ℕ → List ℚ → ℚ)
    (mkChild : ℕ → ℕ → List Individual → List ℚ) (p : RunParams) (saveDir : String)
    (hk : 1 ≤ eliteCount p) :
    ∀ (n g : ℕ) (pop : List Individual) (fs : FS) (i j : ℕ)
      (si sj : GenerationStats),
      pop ≠ [] → i ≤ j →
      ((evolveFrom fitf mkChild p saveDir g pop fs n).1)[i]? = some si →
      ((evolveFrom fitf mkChild p saveDir g pop fs n).1)[j]? = some sj →
      si.max_fitness ≤ sj.max_fitness := by
  intro n
  induction n with
  | zero =>
    intro g pop fs i j si sj _ _ hi _
    exact absurd hi (by simp [evolveFrom])
  | succ n ih =>
    intro g pop fs i j si sj hpop hij hi hj
    have hcons : (evolveFrom fitf mkChild p saveDir g pop fs (n + 1)).1 =
        mkStats g (evaluatePop fitf g pop) ::
          (evolveFrom fitf mkChild p saveDir (g + 1)
            (reproduce p mkChild g (evaluatePop fitf g pop))
            ((saveCheckpoint saveDir g (mkStats g (evaluatePop fitf g pop)).max_fitness
              (mkStats g (evaluatePop fitf g pop)).best_weights fs).2) n).1 := rfl
    cases i with
    | zero =>
      rw [hcons, List.getElem?_cons_zero] at hi
      have hsi : si = mkStats g (evaluatePop fitf g pop) := (Option.some.inj hi).symm
      have := evolveFrom_head_bound fitf mkChild p saveDir hk (n + 1) g pop fs j sj
        hpop hj
      rw [hsi]
      exact this
    | succ i =>
      cases j with
      | zero => omega
      | succ j =>
        rw [hcons, List.getElem?_cons_succ] at hi hj
        have hevne : evaluatePop fitf g pop ≠ [] := evaluatePop_ne_nil fitf g pop hpop
        have hrepne : reproduce p mkChild g (evaluatePop fitf g pop) ≠ [] :=
          reproduce_ne_nil p mkChild g _ hk hevne
        exact ih (g + 1) _ _ i j si sj hrepne (by omega) hi hj

theorem mainAfterResolve_no_resolve (fs : FS) (a : Args) (ts : String) :
    ∀ e ∈ mainAfterResolve fs a ts, e.isResolve = false := by
  unfold mainAfterResolve mainModeBranch
  cases hmk : mkLearningMode (cfgOf a) with
  | error c =>
    intro e he
    fin_cases he
    rfl
  | ok lm =>
    cases hmode : a.mode with
    | learn =>
      cases htr : truthy a.load_weights with
      | false =>
        simp only [Bool.false_eq_true, if_false]
        intro e he
        fin_cases he <;> rfl
      | true =>
        simp only [if_true]
        cases hld : loadWeightsFile fs (a.load_weights.getD "") with
        | error err => intro e he; fin_cases he <;> rfl
        | ok w => intro e he; fin_cases he <;> rfl
    | demo =>
      cases htr : truthy a.load_weights with
      | false =>
        simp only [Bool.false_eq_true, if_false]
        intro e he
        fin_cases he <;> rfl
      | true =>
        simp only [if_true]
        cases hld : loadWeightsFile fs (a.load_weights.getD "") with
        | error err => intro e he; fin_cases he <;> rfl
        | ok w => intro e he; fin_cases he <;> rfl

theorem isResolve_false_cases (e : Event) (h : e.isResolve = false) :
    e.isResolveScenario = false ∧ e.isResolveIntelligence = false := by
  cases e <;> simp_all [Event.isResolve, Event.isResolveScenario,
    Event.isResolveIntelligence]

theorem mainTrace_of_not_list (fs : FS) (a : Args) (ts : String) (hl : a.list = false) :
    mainTrace fs a ts =
      Event.resolveScenario a.scenario :: Event.resolveIntelligence a.intelligence ::
        mainAfterResolve fs a ts := by
  unfold mainTrace
  rw [hl]
  simp only [Bool.false_eq_true, if_false]

/-! ### Claims -/

/-- C1: `run_evolution(generations, save_dir)` returns a history whose length
equals `generations`, ordered by generation index ascending, with
`history[i].generation == i` for every index `i` in range. -/
theorem c1_run_evolution_history (fitf : ℕ → ℕ → List ℚ → ℚ)
    (mkChild : ℕ → ℕ → List Individual → List ℚ) (p : RunParams)
    (pop0 : List Individual) (fs0 : FS) (generations : ℕ) (saveDir : String) :
    ((run_evolution fitf mkChild p pop0 fs0 generations saveDir).1).length = generations ∧
    ∀ (i : ℕ) (s : GenerationStats),
      ((run_evolution fitf mkChild p pop0 fs0 generations saveDir).1)[i]? = some s →
      s.generation = i := by
  constructor
  · exact evolveFrom_length fitf mkChild p saveDir generations 0 pop0 fs0
  · intro i s h
    have := evolveFrom_generation fitf mkChild p saveDir generations 0 pop0 fs0 i s h
    omega

theorem c1_run_evolution_history_witness :
    ((run_evolution exFit exChild exParams exPop exFS 2 "d").1).length = 2 ∧
    GenerationStats.generation
      { generation := 1, max_fitness := 0, mean_fitness := 0, min_fitness := 0,
        best_weights := [0] } = 1 :=
  ⟨(c1_run_evolution_history exFit exChild exParams exPop exFS 2 "d").1,
   (c1_run_evolution_history exFit exChild exParams exPop exFS 2 "d").2 1 _
     (by norm_num [run_evolution, evolveFrom, evaluatePop, evaluateFrom, exFit, exChild,
       exParams, exPop, mkStats, reproduce, sortDesc, eliteCount, ceilNat, fitOf,
       bestIndividual, minFit, mkUneval, exFS])⟩

/-- C4: whenever `elite_percentage > 0` (together with the structural
preconditions that the population is nonempty and `population_size ≥ 1`), the
`max_fitness` values recorded in the history are non-decreasing: for all
`i ≤ j`, `history[i].max_fitness ≤ history[j].max_fitness`. -/
theorem c4_max_fitness_monotone (fitf : ℕ → ℕ → List ℚ → ℚ)
    (mkChild : ℕ → ℕ → List Individual → List ℚ) (p : RunParams)
    (pop0 : List Individual) (fs0 : FS) (generations : ℕ) (saveDir : String)
    (hp : 0 < p.elite_percentage) (hN : 1 ≤ p.population_size) (hpop : pop0 ≠ [])
    (i j : ℕ) (hij : i ≤ j) (si sj : GenerationStats)
    (hi : ((run_evolution fitf mkChild p pop0 fs0 generations saveDir).1)[i]? = some si)
    (hj : ((run_evolution fitf mkChild p pop0 fs0 generations saveDir).1)[j]? = some sj) :
    si.max_fitness ≤ sj.max_fitness :=
  evolveFrom_max_mono fitf mkChild p saveDir (one_le_eliteCount p hp hN) generations 0
    pop0 fs0 i j si sj hpop hij hi hj

theorem c4_max_fitness_monotone_witness :
    (0 : ℚ) < exParams.elite_percentage ∧
    GenerationStats.max_fitness
      { generation := 0, max_fitness := 0, mean_fitness := 0, min_fitness := 0,
        best_weights := [0] } ≤
    GenerationStats.max_fitness
      { generation := 1, max_fitness := 0, mean_fitness := 0, min_fitness := 0,
        best_weights := [0] } :=
  ⟨by norm_num [exParams],
   c4_max_fitness_monotone exFit exChild exParams exPop exFS 2 "d"
     (by norm_num [exParams]) (by norm_num [exParams]) (by simp [exPop]) 0 1 (by omega) _ _
     (by norm_num [run_evolution, evolveFrom, evaluatePop, evaluateFrom, exFit, exChild,
       exParams, exPop, mkStats, reproduce, sortDesc, eliteCount, ceilNat, fitOf,
       bestIndividual, minFit, mkUneval, exFS])
     (by norm_num [run_evolution, evolveFrom, evaluatePop, evaluateFrom, exFit, exChild,
       exParams, exPop, mkStats, reproduce, sortDesc, eliteCount, ceilNat, fitOf,
       bestIndividual, minFit, mkUneval, exFS])⟩

/-- C3: the checkpoint file for generation `g` is located at `save_dir` joined
with `gen_` + `g` as a zero-padded four-digit decimal + `_best_weights.json`
(Python `\x7bg:04d\x7d`: exactly four digits for `g ≤ 9999`, value-preserving
for all `g`), and the path the CLI prints at line 139 is built with exactly
this format. -/
theorem c3_checkpoint_path_format (saveDir : String) (g : ℕ) (fit : ℚ) (ws : List ℚ)
    (fs : FS) :
    (saveCheckpoint saveDir g fit ws fs).1 = cliBestWeightsFile saveDir g ∧
    cliBestWeightsFile saveDir g =
      saveDir ++ "/" ++ ("gen_" ++ String.mk (formatZeroPad4 g) ++ "_best_weights.json") ∧
    parseNatChars (formatZeroPad4 g) = g ∧
    (g ≤ 9999 → (formatZeroPad4 g).length = 4) :=
  ⟨rfl, rfl, parseNatChars_formatZeroPad4 g, fun h => length_formatZeroPad4 g h⟩

theorem c3_checkpoint_path_format_witness :
    (saveCheckpoint "d" 7 0 [1] exFS).1 = cliBestWeightsFile "d" 7 ∧
    cliBestWeightsFile "d" 7 = "d/gen_0007_best_weights.json" ∧
    parseNatChars (formatZeroPad4 7) = 7 ∧
    (formatZeroPad4 7).length = 4 := by
  obtain ⟨h1, h2, h3, h4⟩ := c3_checkpoint_path_format "d" 7 0 [1] exFS
  have h0 : digitsRevNat 0 = [] := by rw [digitsRevNat]; norm_num
  have h7 : digitsRevNat 7 = [7] := by
    rw [digitsRevNat]
    norm_num [h0]
  have hfmt : formatZeroPad4 7 = ['0', '0', '0', '7'] := by
    norm_num [formatZeroPad4, natReprChars, natDecimalDigits, h7, zfillChars, decChar,
      List.replicate]
  exact ⟨h1, by rw [h2, hfmt]; rfl, h3, h4 (by omega)⟩

/-- C5: for every generation index and every non-empty weight vector `ws`,
loading the file produced by saving `ws` for that generation yields exactly
`ws`: the checkpoint round-trip is the identity. -/
theorem c5_checkpoint_round_trip (saveDir : String) (g : ℕ) (fit : ℚ) (ws : List ℚ)
    (fs : FS) (hws : ws ≠ []) :
    loadWeightsFile (saveCheckpoint saveDir g fit ws fs).2
      (saveCheckpoint saveDir g fit ws fs).1 = Except.ok ws := by
  show (match (if checkpointFilePath saveDir g = checkpointFilePath saveDir g then
          some (encodeCheckpoint g fit ws) else fs (checkpointFilePath saveDir g)) with
        | none => Except.error LoadError.missing
        | some j =>
          match decodeWeights j with
          | none => Except.error LoadError.malformed
          | some ws => Except.ok ws) = Except.ok ws
  rw [if_pos rfl]
  show (match decodeWeights (encodeCheckpoint g fit ws) with
        | none => Except.error LoadError.malformed
        | some ws => Except.ok ws) = Except.ok ws
  rw [decodeWeights_encodeCheckpoint]

theorem c5_checkpoint_round_trip_witness :
    loadWeightsFile (saveCheckpoint "d" 3 (5/2) [1/2, -3] exFS).2
      (saveCheckpoint "d" 3 (5/2) [1/2, -3] exFS).1 = Except.ok [1/2, -3] :=
  c5_checkpoint_round_trip "d" 3 (5/2) [1/2, -3] exFS (by simp)

/-- C6: if the file at a path handed to the weight loader is missing or
malformed, loading fails with a `LoadError`; a successful load always comes
from decoding the actual file contents (never a substituted default); and in
`main`, a failing load aborts the requested operation — no evolution run and
no demo happen, in learn mode and demo mode alike. -/
theorem c6_load_error_no_fallback (fs : FS) (path : String) :
    (fs path = none → loadWeightsFile fs path = Except.error LoadError.missing) ∧
    (∀ j, fs path = some j → decodeWeights j = none →
      loadWeightsFile fs path = Except.error LoadError.malformed) ∧
    (∀ w, loadWeightsFile fs path = Except.ok w →
      ∃ j, fs path = some j ∧ decodeWeights j = some w) ∧
    (∀ (a : Args) (ts : String), a.list = false → a.load_weights = some path →
      path ≠ "" → (∃ e, loadWeightsFile fs path = Except.error e) →
      (∀ g sd, Event.runEvolution g sd ∉ mainTrace fs a ts) ∧
      (∀ q n, Event.demoRun q n ∉ mainTrace fs a ts)) := by
  refine ⟨?_, ?_, ?_, ?_⟩
  · intro h
    unfold loadWeightsFile
    rw [h]
  · intro j hj hd
    unfold loadWeightsFile
    rw [hj]
    show (match decodeWeights j with
          | none => Except.error LoadError.malformed
          | some ws => Except.ok ws) = Except.error LoadError.malformed
    rw [hd]
  · intro w hw
    unfold loadWeightsFile at hw
    cases hfs : fs path with
    | none => rw [hfs] at hw; exact Except.noConfusion hw
    | some j =>
      rw [hfs] at hw
      have hw2 : (match decodeWeights j with
          | none => Except.error LoadError.malformed
          | some ws => Except.ok ws) = Except.ok w := hw
      cases hd : decodeWeights j with
      | none => rw [hd] at hw2; exact Except.noConfusion hw2
      | some ws =>
        rw [hd] at hw2
        exact ⟨j, rfl, by rw [hd, Except.ok.inj hw2]⟩
  · intro a ts hl hlw hne herr
    obtain ⟨e, he⟩ := herr
    have htr : truthy a.load_weights = true := by
      rw [hlw]
      simp [truthy, hne]
    have hget : a.load_weights.getD "" = path := by rw [hlw]; rfl
    unfold mainTrace
    rw [hl]
    simp only [Bool.false_eq_true, if_false]
    unfold mainAfterResolve mainModeBranch
    cases hmk : mkLearningMode (cfgOf a) with
    | error c =>
      constructor
      · intro g sd
        simp
      · intro q n
        simp
    | ok lm =>
      cases hmode : a.mode with
      | learn =>
        rw [htr]
        simp only [if_true, hget, he]
        constructor
        · intro g sd
          simp
        · intro q n
          simp
      | demo =>
        rw [htr]
        simp only [if_true, hget, he]
        constructor
        · intro g sd
          simp
        · intro q n
          simp

theorem c6_load_error_no_fallback_witness :
    loadWeightsFile exFS "w.json" = Except.error LoadError.missing ∧
    (∀ g sd, Event.runEvolution g sd ∉
      mainTrace exFS { exArgsDemo with load_weights := some "w.json" } "ts") ∧
    (∀ q n, Event.demoRun q n ∉
      mainTrace exFS { exArgsDemo with load_weights := some "w.json" } "ts") := by
  refine ⟨(c6_load_error_no_fallback exFS "w.json").1 rfl, ?_, ?_⟩
  · exact ((c6_load_error_no_fallback exFS "w.json").2.2.2
      { exArgsDemo with load_weights := some "w.json" } "ts" rfl rfl (by simp)
      ⟨LoadError.missing, (c6_load_error_no_fallback exFS "w.json").1 rfl⟩).1
  · exact ((c6_load_error_no_fallback exFS "w.json").2.2.2
      { exArgsDemo with load_weights := some "w.json" } "ts" rfl rfl (by simp)
      ⟨LoadError.missing, (c6_load_error_no_fallback exFS "w.json").1 rfl⟩).2

/-- C2: for every argument combination whose run parameters are invalid,
construction of the learning runner fails with a `ConfigurationError` before
any simulation work begins; the CLI itself performs no validation — it
packages the parsed values unchanged (`cfgOf`) and hands them straight to the
constructor, so the whole invocation performs only the two registry
resolutions and then stops at the constructor. -/
theorem c2_invalid_params_fail_fast (a : Args) (ts : String) (fs : FS)
    (hl : a.list = false) (hinv : validParams (cfgOf a) = false) :
    cfgOf a = { population_size := a.population_size
                generation_frames := a.generation_frames
                mutation_rate := a.mutation_rate
                mutation_range := a.mutation_range
                elite_percentage := a.elite_percentage
                tournament_size := a.tournament_size
                visualize := a.visualize } ∧
    mkLearningMode (cfgOf a) = Except.error ConfigError.configurationError ∧
    mainTrace fs a ts =
      [Event.resolveScenario a.scenario, Event.resolveIntelligence a.intelligence,
       Event.configFailed] ∧
    ∀ e ∈ mainTrace fs a ts, e.isSimWork = false := by
  have hm : mkLearningMode (cfgOf a) = Except.error ConfigError.configurationError := by
    unfold mkLearningMode
    rw [hinv]
    simp
  have htrace : mainTrace fs a ts =
      [Event.resolveScenario a.scenario, Event.resolveIntelligence a.intelligence,
       Event.configFailed] := by
    rw [mainTrace_of_not_list fs a ts hl]
    unfold mainAfterResolve
    rw [hm]
  refine ⟨rfl, hm, htrace, ?_⟩
  rw [htrace]
  intro e he
  fin_cases he <;> rfl

theorem c2_invalid_params_fail_fast_witness :
    mkLearningMode (cfgOf { exArgsDemo with tournament_size := 100 }) =
      Except.error ConfigError.configurationError ∧
    mainTrace exFS { exArgsDemo with tournament_size := 100 } "ts" =
      [Event.resolveScenario "free_roam", Event.resolveIntelligence "flocking",
       Event.configFailed] := by
  obtain ⟨h1, h2, h3, h4⟩ :=
    c2_invalid_params_fail_fast { exArgsDemo with tournament_size := 100 } "ts" exFS rfl
      (by norm_num [validParams, cfgOf, exArgsDemo])
  exact ⟨h2, h3⟩

/-- C7: for every invocation that proceeds past the `--list` branch, the
scenario class and the intelligence class are each resolved from the registry
exactly once, as the first two actions (before the learning runner is
constructed), and no resolution happens anywhere later in the run. -/
theorem c7_registry_resolved_once (fs : FS) (a : Args) (ts : String)
    (hl : a.list = false) :
    ∃ rest, mainTrace fs a ts =
        Event.resolveScenario a.scenario :: Event.resolveIntelligence a.intelligence ::
          rest ∧
      (∀ e ∈ rest, e.isResolve = false) ∧
      (mainTrace fs a ts).countP Event.isResolveScenario = 1 ∧
      (mainTrace fs a ts).countP Event.isResolveIntelligence = 1 := by
  have htrace := mainTrace_of_not_list fs a ts hl
  have hnores := mainAfterResolve_no_resolve fs a ts
  refine ⟨mainAfterResolve fs a ts, htrace, hnores, ?_, ?_⟩
  · rw [htrace]
    rw [List.countP_cons_of_pos _ _ (by rfl), List.countP_cons_of_neg _ _ (by simp
      [Event.isResolveScenario])]
    rw [List.countP_eq_zero.mpr]
    intro e he
    exact fun hcontra => by
      have := (isResolve_false_cases e (hnores e he)).1
      rw [this] at hcontra
      exact Bool.noConfusion hcontra
  · rw [htrace]
    rw [List.countP_cons_of_neg _ _ (by simp [Event.isResolveIntelligence]),
      List.countP_cons_of_pos _ _ (by rfl)]
    rw [List.countP_eq_zero.mpr]
    intro e he
    exact fun hcontra => by
      have := (isResolve_false_cases e (hnores e he)).2
      rw [this] at hcontra
      exact Bool.noConfusion hcontra

theorem c7_registry_resolved_once_witness :
    ∃ rest, mainTrace exFS exArgsDemo "ts" =
        Event.resolveScenario "free_roam" :: Event.resolveIntelligence "flocking" :: rest ∧
      (∀ e ∈ rest, e.isResolve = false) ∧
      (mainTrace exFS exArgsDemo "ts").countP Event.isResolveScenario = 1 ∧
      (mainTrace exFS exArgsDemo "ts").countP Event.isResolveIntelligence = 1 :=
  c7_registry_resolved_once exFS exArgsDemo "ts" rfl

/-- C9: a demo-mode invocation without `--load-weights` prints an error and
returns without calling `demo_best_weights`: no demo is driven and no
evolution run happens in that invocation. -/
theorem c9_demo_without_weights_aborts (fs : FS) (a : Args) (ts : String)
    (hl : a.list = false) (hm : a.mode = Mode.demo)
    (hw : truthy a.load_weights = false) :
    (∀ q n, Event.demoRun q n ∉ mainTrace fs a ts) ∧
    (∀ g sd, Event.runEvolution g sd ∉ mainTrace fs a ts) ∧
    (validParams (cfgOf a) = true →
      mainTrace fs a ts =
        [Event.resolveScenario a.scenario, Event.resolveIntelligence a.intelligence,
         Event.constructLearning (cfgOf a), Event.printError]) := by
  have htrace := mainTrace_of_not_list fs a ts hl
  have hbranch : ∀ (lm : RunParams), mkLearningMode (cfgOf a) = Except.ok lm →
      mainModeBranch fs a ts = [Event.printError] := by
    intro lm _
    unfold mainModeBranch
    rw [hm, hw]
    simp
  refine ⟨?_, ?_, ?_⟩
  · intro q n hmem
    rw [htrace] at hmem
    simp only [List.mem_cons] at hmem
    rcases hmem with h | h | h
    · exact Event.noConfusion h
    · exact Event.noConfusion h
    · unfold mainAfterResolve at h
      cases hmk : mkLearningMode (cfgOf a) with
      | error c =>
        rw [hmk] at h
        simp at h
      | ok lm =>
        rw [hmk, hbranch lm hmk] at h
        simp at h
  · intro g sd hmem
    rw [htrace] at hmem
    simp only [List.mem_cons] at hmem
    rcases hmem with h | h | h
    · exact Event.noConfusion h
    · exact Event.noConfusion h
    · unfold mainAfterResolve at h
      cases hmk : mkLearningMode (cfgOf a) with
      | error c =>
        rw [hmk] at h
        simp at h
      | ok lm =>
        rw [hmk, hbranch lm hmk] at h
        simp at h
  · intro hv
    have hmk : mkLearningMode (cfgOf a) = Except.ok (cfgOf a) := by
      unfold mkLearningMode
      rw [hv]
      simp
    rw [htrace]
    unfold mainAfterResolve
    rw [hmk, hbranch (cfgOf a) hmk]

theorem c9_demo_without_weights_aborts_witness :
    (∀ q n, Event.demoRun q n ∉ mainTrace exFS exArgsDemo "ts") ∧
    mainTrace exFS exArgsDemo "ts" =
      [Event.resolveScenario "free_roam", Event.resolveIntelligence "flocking",
       Event.constructLearning (cfgOf exArgsDemo), Event.printError] :=
  ⟨(c9_demo_without_weights_aborts exFS exArgsDemo "ts" rfl rfl rfl).1,
   (c9_demo_without_weights_aborts exFS exArgsDemo "ts" rfl rfl rfl).2.2
     (by norm_num [validParams, cfgOf, exArgsDemo])⟩

/-- C10: when `--save-dir` is not supplied, learn mode sets the save
directory to `evolution_results` joined with
`\x7bscenario\x7d_\x7bintelligence\x7d_\x7btimestamp\x7d`, while demo mode
leaves it as `None` and generates no directory name. -/
theorem c10_save_dir_default (a : Args) (ts : String) (hs : a.save_dir = none) :
    (a.mode = Mode.learn →
      effectiveSaveDir a ts =
        some (joinPath "evolution_results"
          (a.scenario ++ "_" ++ a.intelligence ++ "_" ++ ts))) ∧
    (a.mode = Mode.demo → effectiveSaveDir a ts = none) := by
  constructor
  · intro hm
    unfold effectiveSaveDir
    rw [if_pos ⟨hs, hm⟩]
  · intro hm
    unfold effectiveSaveDir
    rw [if_neg, hs]
    rintro ⟨-, hcontra⟩
    rw [hm] at hcontra
    exact Mode.noConfusion hcontra

theorem c10_save_dir_default_witness :
    effectiveSaveDir exArgsDemo "20250101_120000" = none ∧
    effectiveSaveDir { exArgsDemo with mode := Mode.learn } "20250101_120000" =
      some "evolution_results/free_roam_flocking_20250101_120000" := by
  constructor
  · exact (c10_save_dir_default exArgsDemo "20250101_120000" rfl).2 rfl
  · rw [(c10_save_dir_default { exArgsDemo with mode := Mode.learn }
      "20250101_120000" rfl).1 rfl]
    rfl

/-- C8: for every class path containing at least one `'.'`, `load_class`
splits it at the last dot, imports the module named by the part before it and
returns that module's attribute named by the part after it; for every path
with no `'.'`, the two-way unpacking of `rsplit` fails and `load_class`
raises instead of returning a class. -/
theorem c8_load_class_split (env : PyEnv) (s : List Char) :
    ('.' ∈ s → ∃ m c, splitLastDot s = some (m, c) ∧ s = m ++ '.' :: c ∧ '.' ∉ c ∧
      ∀ md cls, env.modules m = some md → env.attr md c = some cls →
        load_class env s = Except.ok cls) ∧
    ('.' ∉ s → load_class env s = Except.error PyError.valueError) := by
  constructor
  · intro hdot
    cases hsp : splitLastDot s with
    | none =>
      exfalso
      exact (splitLastDot_eq_none_iff s).mp hsp hdot
    | some p =>
      obtain ⟨m, c⟩ := p
      obtain ⟨hs, hnc⟩ := splitLastDot_spec s m c hsp
      refine ⟨m, c, rfl, hs, hnc, ?_⟩
      intro md cls hmd hcls
      unfold load_class
      rw [hsp]
      show (match env.modules m with
            | none => Except.error PyError.importError
            | some md =>
              match env.attr md c with
              | none => Except.error PyError.attributeError
              | some cls => Except.ok cls) = Except.ok cls
      rw [hmd]
      show (match env.attr md c with
            | none => Except.error PyError.attributeError
            | some cls => Except.ok cls) = Except.ok cls
      rw [hcls]
  · intro hnot
    unfold load_class
    rw [(splitLastDot_eq_none_iff s).mpr hnot]

theorem c8_load_class_split_witness :
    load_class exEnv ("src.utils".toList) =
      Except.ok ("src".toList, "utils".toList) ∧
    load_class exEnv ("noDots".toList) = Except.error PyError.valueError := by
  constructor
  · obtain ⟨m, c, hsp, hs, hnc, hok⟩ :=
      (c8_load_class_split exEnv ("src.utils".toList)).1 (by decide)
    have hconcrete : splitLastDot ("src.utils".toList) =
        some ("src".toList, "utils".toList) := by decide
    rw [hconcrete] at hsp
    obtain ⟨hm, hc⟩ := Prod.mk.injEq .. ▸ (Option.some.inj hsp)
    subst hm
    subst hc
    exact hok _ _ rfl rfl
  · exact (c8_load_class_split exEnv ("noDots".toList)).2 (by decide)

end OmniFlock
